import Mathlib

/-!
# The logging facade of `pkg/logging/logger.go`

The facade wraps the structured logger of `github.com/go-kit/log` and its `level` package.
The embedding has three layers, one namespace each, named after the Go packages:

* `level` : level values and the bit masks of the severity filter;
* `log`   : the values a key/value list holds, the loggers (`context`, the level filter, the
  two encoders, the no-op logger), `With`, `WithPrefix` and `Log`;
* `logging` : `gokitLogger`, `NewLogger`, `NewNopLogger` and the seven methods of the facade.

A call of `Log` is modelled by the list of records it hands to an encoder: one record when
the call reaches the encoder, none when it is dropped on the way.  The encoder writes a line
to standard error for a record; its encoding and write errors are returned to the facade,
which ignores them, and are not part of the model.  What a `Valuer` reads when a record is
emitted (the clock, the call stack) is the explicit argument `Env`.
-/

namespace level

/-- The Go struct `levelValue`: a name and one bit of the `level` byte. -/
structure levelValue where
  name : String
  level : Nat
deriving DecidableEq, Repr

/-- The constant `levelDebug level = 1 << iota`. -/
def levelDebug : Nat := 1
/-- The constant `levelInfo`. -/
def levelInfo : Nat := 2
/-- The constant `levelWarn`. -/
def levelWarn : Nat := 4
/-- The constant `levelError`. -/
def levelError : Nat := 8

/-- The value `errorValue`. -/
def errorValue : levelValue := ⟨"error", levelError⟩
/-- The value `warnValue`. -/
def warnValue : levelValue := ⟨"warn", levelWarn⟩
/-- The value `infoValue`. -/
def infoValue : levelValue := ⟨"info", levelInfo⟩
/-- The value `debugValue`. -/
def debugValue : levelValue := ⟨"debug", levelDebug⟩

/-- The option `AllowDebug()`: the mask `levelError | levelWarn | levelInfo | levelDebug`. -/
def AllowDebug : Nat := levelError ||| levelWarn ||| levelInfo ||| levelDebug

/-- The option `AllowInfo()`: the mask `levelError | levelWarn | levelInfo`. -/
def AllowInfo : Nat := levelError ||| levelWarn ||| levelInfo

end level

namespace log

/-- What the valuers of a logger read at the moment a record is emitted: the formatted UTC
time and, for each stack depth, the `file:line` of the frame at that depth. -/
structure Env where
  now : String
  callerAt : Nat → String

/-- A non-nil Go `error`, given by the text its `Error` method returns. -/
structure GoError where
  Error : String
deriving DecidableEq, Repr

/-- The Go values (`interface{}`) that occur in key/value lists.  `Valuer` is the go-kit type
`Valuer func() interface{}`; the function reads the environment of the emission.  The loggers
look at a value only to ask whether it is a `Valuer` or a level value, so every Go value of
another type than the ones listed is `other`, given by its printed form. -/
inductive Value where
  | nil
  | str (s : String)
  | int (n : Int)
  | bool (b : Bool)
  | error (e : GoError)
  | levelValue (v : level.levelValue)
  | Valuer (f : Env → Value)
  | other (printed : String)

instance : Inhabited Value := ⟨Value.nil⟩

/-- The placeholder `ErrMissingValue = errors.New("(MISSING)")`. -/
def ErrMissingValue : Value := .error ⟨"(MISSING)"⟩

/-- The valuer `DefaultTimestampUTC`. -/
def DefaultTimestampUTC : Value := .Valuer fun env => .str env.now

/-- The valuer `Caller(depth)`. -/
def Caller (depth : Nat) : Value := .Valuer fun env => .str (env.callerAt depth)

/-- The encoders behind a logger. -/
inductive Encoding where
  | json
  | logfmt
deriving DecidableEq, Repr

/-- A record: the key/value list handed to an encoder, which writes it as one line. -/
structure Record where
  encoding : Encoding
  keyvals : List Value

/-- The implementations of the interface `log.Logger` that the facade builds: the two
encoders on standard error, the no-op logger, the filter of package `level` (Go struct
`logger` with its fields `next`, `allowed`, `squelchNoLevel`) and `context` (fields `logger`,
`keyvals`, `hasValuer`; the suffix fields stay empty, no `WithSuffix` is called). -/
inductive Logger where
  | jsonLogger
  | logfmtLogger
  | nopLogger
  | filter (next : Logger) (allowed : Nat) (squelchNoLevel : Bool)
  | context (logger : Logger) (keyvals : List Value) (hasValuer : Bool)

/-- The constructor `NewJSONLogger(NewSyncWriter(os.Stderr))`. -/
def NewJSONLogger : Logger := .jsonLogger
/-- The constructor `NewLogfmtLogger(NewSyncWriter(os.Stderr))`. -/
def NewLogfmtLogger : Logger := .logfmtLogger
/-- The constructor `NewNopLogger()`. -/
def NewNopLogger : Logger := .nopLogger

/-- The loop of `containsValuer`: is there a `Valuer` at an odd index. -/
def containsValuer : List Value → Bool
  | _ :: .Valuer _ :: _ => true
  | _ :: _ :: rest => containsValuer rest
  | _ => false

/-- One step of `bindValues`: a `Valuer` is replaced by what it returns. -/
def bindValue (env : Env) : Value → Value
  | .Valuer f => f env
  | v => v

/-- The loop of `bindValues`: every `Valuer` at an odd index is replaced by its result. -/
def bindValues (env : Env) : List Value → List Value
  | k :: v :: rest => k :: bindValue env v :: bindValues env rest
  | kvs => kvs

/-- The Go idiom `if len(kvs)%2 != 0 { kvs = append(kvs, ErrMissingValue) }`. -/
def padMissing (kvs : List Value) : List Value :=
  if kvs.length % 2 ≠ 0 then kvs ++ [ErrMissingValue] else kvs

/-- The function `newContext`: a `context` is taken as it is, any other logger is wrapped in
an empty one. -/
def newContext : Logger → Logger × List Value × Bool
  | .context logger keyvals hasValuer => (logger, keyvals, hasValuer)
  | logger => (logger, [], false)

/-- The function `With(logger, keyvals...)`. -/
def With (logger : Logger) (keyvals : List Value) : Logger :=
  if keyvals.length = 0 then logger
  else
    let l := newContext logger
    let kvs := padMissing (l.2.1 ++ keyvals)
    .context l.1 kvs (l.2.2 || containsValuer keyvals)

/-- The function `WithPrefix(logger, keyvals...)`. -/
def WithPrefix (logger : Logger) (keyvals : List Value) : Logger :=
  if keyvals.length = 0 then logger
  else
    let l := newContext logger
    let kvs := padMissing keyvals ++ l.2.1
    .context l.1 kvs (l.2.2 || containsValuer keyvals)

/-- The loop of the filter: the first level value at an odd index. -/
def findLevel : List Value → Option level.levelValue
  | _ :: .levelValue v :: _ => some v
  | _ :: _ :: rest => findLevel rest
  | _ => none

/-- The method `Log` of each logger, as the list of records handed to an encoder.
`context.Log` appends the call's key/values to the stored ones, pads an odd list, binds the
valuers of the stored part and calls the wrapped logger; the filter drops a record whose first
level value is not allowed (and one without a level value when `squelchNoLevel`). -/
def Logger.Log : Logger → Env → List Value → List Record
  | .jsonLogger, _, keyvals => [⟨.json, keyvals⟩]
  | .logfmtLogger, _, keyvals => [⟨.logfmt, keyvals⟩]
  | .nopLogger, _, _ => []
  | .filter next allowed squelchNoLevel, env, keyvals =>
    match findLevel keyvals with
    | none => if squelchNoLevel then [] else next.Log env keyvals
    | some v => if allowed &&& v.level ≠ 0 then next.Log env keyvals else []
  | .context logger keyvals hasValuer, env, kv =>
    let kvs := padMissing (keyvals ++ kv)
    let kvs :=
      if hasValuer then
        bindValues env (kvs.take keyvals.length) ++ kvs.drop keyvals.length
      else kvs
    logger.Log env kvs

end log

namespace level

/-- The value `key`, returned by `Key()`. -/
def Key : log.Value := .str "level"

/-- The function `NewFilter(next, option)` for an option that sets the allowed mask. -/
def NewFilter (next : log.Logger) (allowed : Nat) : log.Logger :=
  .filter next allowed false

/-- The function `Error(logger)`. -/
def Error (logger : log.Logger) : log.Logger :=
  log.WithPrefix logger [Key, .levelValue errorValue]

/-- The function `Warn(logger)`. -/
def Warn (logger : log.Logger) : log.Logger :=
  log.WithPrefix logger [Key, .levelValue warnValue]

/-- The function `Info(logger)`. -/
def Info (logger : log.Logger) : log.Logger :=
  log.WithPrefix logger [Key, .levelValue infoValue]

/-- The function `Debug(logger)`. -/
def Debug (logger : log.Logger) : log.Logger :=
  log.WithPrefix logger [Key, .levelValue debugValue]

end level

namespace logging

open log (Value Env Record)

/-- The Go struct `gokitLogger`. -/
structure gokitLogger where
  logger : log.Logger
  debugEnabled : Bool
  reduceInfoLogs : Bool

/-- The Go value of the parameter `err error`: nil or an error. -/
def errValue : Option log.GoError → Value
  | none => .nil
  | some e => .error e

/-- The constructor `NewLogger(format, debugEnabled, reduceInfoLogs, keyvals...)`. -/
def NewLogger (format : String) (debugEnabled : Bool) (reduceInfoLogs : Bool)
    (keyvals : List Value) : gokitLogger :=
  let logger := if format == "json" then log.NewJSONLogger else log.NewLogfmtLogger
  let logger :=
    if debugEnabled then level.NewFilter logger level.AllowDebug
    else level.NewFilter logger level.AllowInfo
  let logger := log.With logger [.str "ts", log.DefaultTimestampUTC, .str "caller", log.Caller 4]
  let logger := log.With logger keyvals
  { logger := logger, debugEnabled := debugEnabled, reduceInfoLogs := reduceInfoLogs }

/-- The constructor `NewNopLogger()`; the two flags are the zero value `false`. -/
def NewNopLogger : gokitLogger :=
  { logger := log.NewNopLogger, debugEnabled := false, reduceInfoLogs := false }

/-- The method `Debug(message, keyvals...)`. -/
def gokitLogger.Debug (g : gokitLogger) (env : Env) (message : String)
    (keyvals : List Value) : List Record :=
  if g.debugEnabled then
    let kv := [.str "msg", .str message]
    let kv := kv ++ keyvals
    (level.Debug g.logger).Log env kv
  else []

/-- The method `Info(message, keyvals...)`. -/
def gokitLogger.Info (g : gokitLogger) (env : Env) (message : String)
    (keyvals : List Value) : List Record :=
  let kv := [.str "msg", .str message]
  let kv := kv ++ keyvals
  (level.Info g.logger).Log env kv

/-- The method `Error(err, message, keyvals...)`. -/
def gokitLogger.Error (g : gokitLogger) (env : Env) (err : Option log.GoError)
    (message : String) (keyvals : List Value) : List Record :=
  let kv := [.str "msg", .str message, .str "err", errValue err]
  let kv := kv ++ keyvals
  (level.Error g.logger).Log env kv

/-- The method `Warn(message, keyvals...)`. -/
def gokitLogger.Warn (g : gokitLogger) (env : Env) (message : String)
    (keyvals : List Value) : List Record :=
  let kv := [.str "msg", .str message]
  let kv := kv ++ keyvals
  (level.Warn g.logger).Log env kv

/-- The method `With(keyvals...)`; the struct literal leaves `reduceInfoLogs` at its zero
value. -/
def gokitLogger.With (g : gokitLogger) (keyvals : List Value) : gokitLogger :=
  { logger := log.With g.logger keyvals, debugEnabled := g.debugEnabled,
    reduceInfoLogs := false }

/-- The method `IsDebugEnabled()`. -/
def gokitLogger.IsDebugEnabled (g : gokitLogger) : Bool := g.debugEnabled

/-- The method `ReduceInfoLogs()`. -/
def gokitLogger.ReduceInfoLogs (g : gokitLogger) : Bool := g.reduceInfoLogs

end logging

/-! ## Vocabulary of the statements -/

namespace log

/-- The key/value pairs of a key/value list, as both encoders read it: index `2i` is a key,
index `2i+1` its value, and a last key without a value gets `ErrMissingValue`. -/
def pairs : List Value → List (Value × Value)
  | k :: v :: rest => (k, v) :: pairs rest
  | [k] => [(k, ErrMissingValue)]
  | [] => []

/-- The key/value list stored in a logger: the field `keyvals` of a `context`, empty for a
logger that is not a `context` (as `newContext` reads it). -/
def Logger.fields (l : Logger) : List Value := (newContext l).2.1

end log

namespace logging

open log (Value Env Record)

/-- The four emission methods of the interface `Logger`, with the extra argument of `Error`. -/
inductive Method where
  | debug
  | info
  | warn
  | error (err : Option log.GoError)

/-- The level value that the method attaches to its record. -/
def Method.levelValue : Method → level.levelValue
  | .debug => level.debugValue
  | .info => level.infoValue
  | .warn => level.warnValue
  | .error _ => level.errorValue

/-- A call of an emission method on a facade logger. -/
def gokitLogger.emit (g : gokitLogger) (env : Env) : Method → String → List Value → List Record
  | .debug, message, kv => g.Debug env message kv
  | .info, message, kv => g.Info env message kv
  | .warn, message, kv => g.Warn env message kv
  | .error err, message, kv => g.Error env err message kv

/-- A chain of `With` calls, one for each element of `ws`, in order. -/
def gokitLogger.withAll (g : gokitLogger) (ws : List (List Value)) : gokitLogger :=
  ws.foldl gokitLogger.With g

/-- The encoding that `NewLogger` selects for a format string. -/
def encodingOf (format : String) : log.Encoding :=
  if format == "json" then .json else .logfmt

/-- The logger that `NewLogger` wraps in its `context`: the level filter over the encoder. -/
def filterOf (format : String) (d : Bool) : log.Logger :=
  level.NewFilter (if format == "json" then log.NewJSONLogger else log.NewLogfmtLogger)
    (if d then level.AllowDebug else level.AllowInfo)

/-- The key/value list that a method passes to `Log`. -/
def Method.keyvals : Method → String → List Value → List Value
  | .error err, message, kv => [.str "msg", .str message, .str "err", errValue err] ++ kv
  | _, message, kv => [.str "msg", .str message] ++ kv

/-- Does a logger with flag `d` write the records of the method: `Debug` only when `d`. -/
def Method.admitted (d : Bool) : Method → Bool
  | .debug => d
  | _ => true

/-- The logger of `g` is a `context` with bound valuers over the filter of `NewLogger`, it
stores a key/value list of even length, and `g` has the debug flag `d`. -/
def Backed (format : String) (d : Bool) (g : gokitLogger) : Prop :=
  g.debugEnabled = d ∧ g.logger.fields.length % 2 = 0 ∧
    g.logger = .context (filterOf format d) g.logger.fields true

/-- The logger of `g` ends in the no-op logger, and both flags of `g` are false. -/
def NopBacked (g : gokitLogger) : Prop :=
  g.debugEnabled = false ∧ g.reduceInfoLogs = false ∧
    (g.logger = .nopLogger ∨ ∃ ks hv, g.logger = .context .nopLogger ks hv)

/-- The fields accumulated by `NewLogger(_, _, _, base...)` and the `With` calls `ws`, as they
stand in a record emitted in `env`: the two enrichment fields with the values their valuers
return, then `base` and the lists of `ws` in call order, with valuers bound. -/
def accumulated (env : Env) (base : List Value) (ws : List (List Value)) : List Value :=
  [.str "ts", .str env.now, .str "caller", .str (env.callerAt 4)] ++
    log.bindValues env (base ++ ws.flatten)

/-- An environment for the concrete examples. -/
def env0 : Env := ⟨"2024-01-01T00:00:00Z", fun _ => "main.go:10"⟩

/-- A record carries the message and the key/values of the call and no `err` pair of its
own: an `err` pair in it comes from the stored fields or from the key/values of the call. -/
def CarriesCall (stored : List Value) (message : String) (kv : List Value) (rec : Record) :
    Prop :=
  (Value.str "msg", Value.str message) ∈ log.pairs rec.keyvals ∧
  (∀ p ∈ log.pairs kv, p ∈ log.pairs rec.keyvals) ∧
  ∀ x, (Value.str "err", x) ∈ log.pairs rec.keyvals →
    (Value.str "err", x) ∈ log.pairs stored ∨ (Value.str "err", x) ∈ log.pairs kv

/-- The Loggers a caller can obtain: the package exports the two constructors and the
interface, so every Logger comes from `NewLogger` or `NewNopLogger` by `With` calls. -/
inductive Built : gokitLogger → Prop where
  | newLogger (format : String) (d r : Bool) (base : List Value) :
      Built (NewLogger format d r base)
  | nop : Built NewNopLogger
  | step {g : gokitLogger} (kvs : List Value) : Built g → Built (g.With kvs)

end logging

/-! ## Lemmas on key/value lists -/

namespace log

theorem padMissing_even {kvs : List Value} (h : kvs.length % 2 = 0) : padMissing kvs = kvs := by
  simp [padMissing, h]

theorem padMissing_length (kvs : List Value) : (padMissing kvs).length % 2 = 0 := by
  unfold padMissing
  split
  · simp only [List.length_append, List.length_singleton]; omega
  · omega

theorem padMissing_append_even {a : List Value} (b : List Value) (h : a.length % 2 = 0) :
    padMissing (a ++ b) = a ++ padMissing b := by
  unfold padMissing
  have : (a ++ b).length % 2 = b.length % 2 := by
    simp only [List.length_append]; omega
  rw [this]
  split <;> simp

theorem bindValues_length (env : Env) : ∀ kvs : List Value, (bindValues env kvs).length = kvs.length
  | [] => rfl
  | [_] => rfl
  | _ :: _ :: rest => by simp [bindValues, bindValues_length env rest]

theorem bindValues_append_even (env : Env) :
    ∀ (a b : List Value), a.length % 2 = 0 →
      bindValues env (a ++ b) = bindValues env a ++ bindValues env b
  | [], _, _ => rfl
  | [_], _, h => by simp at h
  | k :: v :: rest, b, h => by
    have h2 : rest.length % 2 = 0 := by
      simp only [List.length_cons] at h; omega
    simp [bindValues, bindValues_append_even env rest b h2]

theorem containsValuer_append_even :
    ∀ (a b : List Value), a.length % 2 = 0 →
      containsValuer (a ++ b) = (containsValuer a || containsValuer b)
  | [], _, _ => by simp [containsValuer]
  | [_], _, h => by simp at h
  | k :: v :: rest, b, h => by
    have h2 : rest.length % 2 = 0 := by
      simp only [List.length_cons] at h; omega
    cases v <;> simp [containsValuer, containsValuer_append_even rest b h2]

theorem pairs_append_even :
    ∀ (a b : List Value), a.length % 2 = 0 → pairs (a ++ b) = pairs a ++ pairs b
  | [], _, _ => rfl
  | [_], _, h => by simp at h
  | k :: v :: rest, b, h => by
    have h2 : rest.length % 2 = 0 := by
      simp only [List.length_cons] at h; omega
    simp [pairs, pairs_append_even rest b h2]

theorem pairs_padMissing : ∀ kvs : List Value, pairs (padMissing kvs) = pairs kvs
  | [] => rfl
  | [_] => rfl
  | k :: v :: rest => by
    have h := pairs_padMissing rest
    have e : padMissing (k :: v :: rest) = k :: v :: padMissing rest :=
      padMissing_append_even (a := [k, v]) rest (by simp)
    rw [e]; simp [pairs, h]

end log

/-! ## Lemmas on the go-kit loggers -/

namespace log

theorem With_context (T : Logger) (ks : List Value) (hv : Bool) (kvs : List Value)
    (hks : ks.length % 2 = 0) :
    With (.context T ks hv) kvs = .context T (padMissing (ks ++ kvs)) (hv || containsValuer kvs) := by
  cases kvs with
  | nil => simp [With, containsValuer, padMissing_even hks]
  | cons x xs => simp [With, newContext]

theorem Log_WithPrefix_level (T : Logger) (ks : List Value) (hv : Bool)
    (lv : level.levelValue) (env : Env) (kv : List Value) (hks : ks.length % 2 = 0) :
    (WithPrefix (.context T ks hv) [.str "level", .levelValue lv]).Log env kv =
      T.Log env (.str "level" :: .levelValue lv ::
        ((if hv then bindValues env ks else ks) ++ padMissing kv)) := by
  have hpad : padMissing ([.str "level", .levelValue lv] ++ ks ++ kv)
      = [.str "level", .levelValue lv] ++ ks ++ padMissing kv := by
    rw [padMissing_append_even]
    simp only [List.length_append, List.length_cons, List.length_nil]; omega
  cases hv with
  | false =>
    simp only [WithPrefix, newContext, Logger.Log, containsValuer, padMissing]
    simp only [padMissing] at hpad
    simpa using congrArg (T.Log env) hpad
  | true =>
    simp only [WithPrefix, newContext, Logger.Log, containsValuer]
    have e1 : padMissing [Value.str "level", Value.levelValue lv]
        = [Value.str "level", Value.levelValue lv] := padMissing_even (by simp)
    rw [e1, hpad]
    simp only [Bool.true_or, if_true, List.length_cons, List.length_nil, if_false]
    rw [List.take_left, List.drop_left, bindValues_append_even env _ _ (by simp)]
    simp [bindValues, bindValue]

theorem Log_filter_level (S : Logger) (allowed : Nat) (sq : Bool) (lv : level.levelValue)
    (env : Env) (k : Value) (rest : List Value) :
    (Logger.filter S allowed sq).Log env (k :: .levelValue lv :: rest) =
      if allowed &&& lv.level ≠ 0 then S.Log env (k :: .levelValue lv :: rest) else [] := by
  simp [Logger.Log, findLevel]

end log

/-! ## Lemmas on the facade -/

namespace logging

open log

theorem filterOf_Log (format : String) (d : Bool) (lv : level.levelValue) (env : Env)
    (k : Value) (rest : List Value) :
    (filterOf format d).Log env (k :: .levelValue lv :: rest) =
      if (if d then level.AllowDebug else level.AllowInfo) &&& lv.level ≠ 0 then
        [⟨encodingOf format, k :: .levelValue lv :: rest⟩]
      else [] := by
  unfold filterOf level.NewFilter
  rw [Log_filter_level]
  by_cases h : (format == "json") = true <;>
    simp [h, encodingOf, NewJSONLogger, NewLogfmtLogger, Logger.Log]

theorem backed_NewLogger (format : String) (d r : Bool) (base : List Value) :
    Backed format d (NewLogger format d r base) := by
  have h1 : log.With (filterOf format d)
      [.str "ts", log.DefaultTimestampUTC, .str "caller", log.Caller 4]
      = .context (filterOf format d)
          [.str "ts", log.DefaultTimestampUTC, .str "caller", log.Caller 4] true := by
    simp [log.With, newContext, filterOf, level.NewFilter, padMissing, containsValuer,
      DefaultTimestampUTC]
  have h2 : (NewLogger format d r base).logger
      = log.With (log.With (filterOf format d)
          [.str "ts", log.DefaultTimestampUTC, .str "caller", log.Caller 4]) base := by
    cases d <;> simp [NewLogger, filterOf]
  refine ⟨rfl, ?_, ?_⟩
  · rw [h2, h1, With_context _ _ _ _ (by simp)]
    simpa [Logger.fields, newContext] using padMissing_length _
  · rw [h2, h1, With_context _ _ _ _ (by simp)]
    simp [Logger.fields, newContext]

theorem backed_With {format : String} {d : Bool} {g : gokitLogger} (h : Backed format d g)
    (kvs : List Value) : Backed format d (g.With kvs) := by
  obtain ⟨hd, hev, hl⟩ := h
  have e : (g.With kvs).logger
      = .context (filterOf format d) (padMissing (g.logger.fields ++ kvs)) true := by
    show log.With g.logger kvs = _
    rw [hl, With_context _ _ _ _ (by simpa [Logger.fields, newContext] using hev)]
    simp [Logger.fields, newContext]
  refine ⟨hd, ?_, ?_⟩
  · rw [e]; simpa [Logger.fields, newContext] using padMissing_length _
  · rw [e]; simp [Logger.fields, newContext]

theorem fields_With {format : String} {d : Bool} {g : gokitLogger} (h : Backed format d g)
    (kvs : List Value) :
    (g.With kvs).logger.fields = padMissing (g.logger.fields ++ kvs) := by
  obtain ⟨_, hev, hl⟩ := h
  show (log.With g.logger kvs).fields = _
  rw [hl, With_context _ _ _ _ (by simpa [Logger.fields, newContext] using hev)]
  simp [Logger.fields, newContext]

theorem backed_withAll {format : String} {d : Bool} (ws : List (List Value)) :
    ∀ {g : gokitLogger}, Backed format d g → Backed format d (g.withAll ws) := by
  induction ws with
  | nil => intro g h; exact h
  | cons w ws ih => intro g h; exact ih (backed_With h w)

theorem emit_backed {format : String} {d : Bool} {g : gokitLogger} (h : Backed format d g)
    (env : Env) (m : Method) (message : String) (kv : List Value) :
    g.emit env m message kv =
      if m.admitted d then
        [⟨encodingOf format, level.Key :: .levelValue m.levelValue ::
          (bindValues env g.logger.fields ++ padMissing (m.keyvals message kv))⟩]
      else [] := by
  obtain ⟨hd, hev, hl⟩ := h
  have key : ∀ lv : level.levelValue, ∀ kvs : List Value,
      (log.WithPrefix g.logger [level.Key, .levelValue lv]).Log env kvs =
        if (if d then level.AllowDebug else level.AllowInfo) &&& lv.level ≠ 0 then
          [⟨encodingOf format, level.Key :: .levelValue lv ::
            (bindValues env g.logger.fields ++ padMissing kvs)⟩]
        else [] := by
    intro lv kvs
    rw [hl]
    simp only [level.Key]
    rw [Log_WithPrefix_level _ _ _ _ _ _ (by simpa [Logger.fields, newContext] using hev),
      filterOf_Log]
    simp [Logger.fields, newContext]
  cases m <;> cases d <;>
    simp [gokitLogger.emit, gokitLogger.Debug, gokitLogger.Info, gokitLogger.Warn,
      gokitLogger.Error, level.Debug, level.Info, level.Warn, level.Error, key, hd,
      Method.admitted, Method.levelValue, Method.keyvals, level.debugValue, level.infoValue,
      level.warnValue, level.errorValue, level.AllowDebug, level.AllowInfo, level.levelDebug,
      level.levelInfo, level.levelWarn, level.levelError]

end logging

namespace logging

open log

theorem debugEnabled_withAll (ws : List (List Value)) :
    ∀ g : gokitLogger, (g.withAll ws).debugEnabled = g.debugEnabled := by
  induction ws with
  | nil => intro g; rfl
  | cons w ws ih => intro g; exact (ih (g.With w)).trans rfl

theorem reduceInfoLogs_With_withAll (ws : List (List Value)) :
    ∀ (g : gokitLogger) (w : List Value), ((g.With w).withAll ws).reduceInfoLogs = false := by
  induction ws with
  | nil => intro g w; rfl
  | cons w2 ws ih => intro g w; exact ih (g.With w) w2

theorem nopBacked_With {g : gokitLogger} (h : NopBacked g) (kvs : List Value) :
    NopBacked (g.With kvs) := by
  obtain ⟨hd, _, hl⟩ := h
  refine ⟨hd, rfl, ?_⟩
  show log.With g.logger kvs = _ ∨ ∃ ks hv, log.With g.logger kvs = _
  cases kvs with
  | nil => simpa [log.With] using hl
  | cons x xs =>
    rcases hl with hl | ⟨ks, hv, hl⟩
    · right; rw [hl]; exact ⟨_, _, by simp [log.With, newContext]; exact ⟨rfl, rfl⟩⟩
    · right; rw [hl]; exact ⟨_, _, by simp [log.With, newContext]; exact ⟨rfl, rfl⟩⟩

theorem nopBacked_withAll (ws : List (List Value)) :
    ∀ {g : gokitLogger}, NopBacked g → NopBacked (g.withAll ws) := by
  induction ws with
  | nil => intro g h; exact h
  | cons w ws ih => intro g h; exact ih (nopBacked_With h w)

theorem Log_WithPrefix_nop {L : Logger}
    (hL : L = .nopLogger ∨ ∃ ks hv, L = .context .nopLogger ks hv)
    (x y : Value) (env : Env) (kv : List Value) :
    (log.WithPrefix L [x, y]).Log env kv = [] := by
  rcases hL with hL | ⟨ks, hv, hL⟩ <;> subst hL <;>
    simp [log.WithPrefix, newContext, Logger.Log]

theorem emit_nopBacked {g : gokitLogger} (h : NopBacked g) (env : Env) (m : Method)
    (message : String) (kv : List Value) : g.emit env m message kv = [] := by
  obtain ⟨hd, _, hl⟩ := h
  cases m <;>
    simp [gokitLogger.emit, gokitLogger.Debug, gokitLogger.Info, gokitLogger.Warn,
      gokitLogger.Error, level.Debug, level.Info, level.Warn, level.Error, hd,
      Log_WithPrefix_nop hl]

theorem nopBacked_NewNopLogger : NopBacked NewNopLogger :=
  ⟨rfl, rfl, Or.inl rfl⟩

theorem built_cases {l : gokitLogger} (h : Built l) :
    NopBacked l ∨ ∃ format d, Backed format d l := by
  induction h with
  | newLogger format d r base => exact Or.inr ⟨format, d, backed_NewLogger format d r base⟩
  | nop => exact Or.inl nopBacked_NewNopLogger
  | step kvs _ ih =>
    rcases ih with ih | ⟨format, d, ih⟩
    · exact Or.inl (nopBacked_With ih kvs)
    · exact Or.inr ⟨format, d, backed_With ih kvs⟩

/-! ## The claims -/

/-- C1: a Logger built by `NewLogger` with `debugEnabled = false`, for any format, any
`reduceInfoLogs` and any base fields, and any Logger derived from it by any number of `With`
calls, emits no record on `Debug(message, kv...)`, whatever the message and the key/values. -/
theorem C1_debug_disabled_emits_nothing (format : String) (r : Bool) (base : List Value)
    (ws : List (List Value)) (env : Env) (message : String) (kv : List Value) :
    ((NewLogger format false r base).withAll ws).Debug env message kv = [] := by
  have h := emit_backed (backed_withAll ws (backed_NewLogger format false r base))
    env .debug message kv
  simpa [gokitLogger.emit, Method.admitted] using h

/-- C2: on a Logger built by `NewLogger` with `debugEnabled = true` (and on every Logger
derived from it by `With` calls) each call of `Debug`, `Info`, `Warn` and `Error` hands
exactly one record to the encoder, and the record starts with the pair `level = v` where `v`
is the level value of the method called: debug, info, warn, error. -/
theorem C2_debug_enabled_one_record_each (format : String) (r : Bool) (base : List Value)
    (ws : List (List Value)) (env : Env) (err : Option GoError) (message : String)
    (kv : List Value) :
    (∃ rest, ((NewLogger format true r base).withAll ws).Debug env message kv =
      [⟨encodingOf format, .str "level" :: .levelValue level.debugValue :: rest⟩]) ∧
    (∃ rest, ((NewLogger format true r base).withAll ws).Info env message kv =
      [⟨encodingOf format, .str "level" :: .levelValue level.infoValue :: rest⟩]) ∧
    (∃ rest, ((NewLogger format true r base).withAll ws).Warn env message kv =
      [⟨encodingOf format, .str "level" :: .levelValue level.warnValue :: rest⟩]) ∧
    (∃ rest, ((NewLogger format true r base).withAll ws).Error env err message kv =
      [⟨encodingOf format, .str "level" :: .levelValue level.errorValue :: rest⟩]) := by
  have h := emit_backed (backed_withAll ws (backed_NewLogger format true r base)) env
  have hD := h .debug message kv
  have hI := h .info message kv
  have hW := h .warn message kv
  have hE := h (.error err) message kv
  simp only [gokitLogger.emit, Method.admitted, Method.levelValue, level.Key, if_true]
    at hD hI hW hE
  exact ⟨⟨_, hD⟩, ⟨_, hI⟩, ⟨_, hW⟩, ⟨_, hE⟩⟩

/-- C3: on a Logger built by `NewLogger` with `debugEnabled = false` (and on every Logger
derived from it by `With` calls) each call of `Info`, `Warn` and `Error` passes the filter and
hands exactly one record to the encoder, whatever key/values the caller passes, level values
among them: the record starts with the level pair of the method, which is the first level
value the filter meets, and the mask `AllowInfo` admits info, warn and error. -/
theorem C3_info_warn_error_pass_filter (format : String) (r : Bool) (base : List Value)
    (ws : List (List Value)) (env : Env) (err : Option GoError) (message : String)
    (kv : List Value) :
    (∃ rest, ((NewLogger format false r base).withAll ws).Info env message kv =
      [⟨encodingOf format, .str "level" :: .levelValue level.infoValue :: rest⟩]) ∧
    (∃ rest, ((NewLogger format false r base).withAll ws).Warn env message kv =
      [⟨encodingOf format, .str "level" :: .levelValue level.warnValue :: rest⟩]) ∧
    (∃ rest, ((NewLogger format false r base).withAll ws).Error env err message kv =
      [⟨encodingOf format, .str "level" :: .levelValue level.errorValue :: rest⟩]) := by
  have h := emit_backed (backed_withAll ws (backed_NewLogger format false r base)) env
  have hI := h .info message kv
  have hW := h .warn message kv
  have hE := h (.error err) message kv
  simp only [gokitLogger.emit, Method.admitted, Method.levelValue, level.Key, if_true]
    at hI hW hE
  exact ⟨⟨_, hI⟩, ⟨_, hW⟩, ⟨_, hE⟩⟩

/-- C5: for a Logger obtained from `NewLogger(format, d, r, base...)` by zero or more chained
`With` calls with any arguments, `IsDebugEnabled()` returns `d`. -/
theorem C5_isDebugEnabled_is_root_flag (format : String) (d r : Bool) (base : List Value)
    (ws : List (List Value)) :
    ((NewLogger format d r base).withAll ws).IsDebugEnabled = d := by
  show ((NewLogger format d r base).withAll ws).debugEnabled = d
  rw [debugEnabled_withAll]; rfl

/-- C6: `ReduceInfoLogs()` returns `r` on the root Logger `NewLogger(format, d, r, base...)`,
and `false` on every Logger obtained from it by one or more `With` calls (a `With` without
arguments among them), also when `r` is true. -/
theorem C6_reduceInfoLogs_root_only (format : String) (d r : Bool) (base : List Value) :
    (NewLogger format d r base).ReduceInfoLogs = r ∧
    ∀ (w : List Value) (ws : List (List Value)),
      (((NewLogger format d r base).With w).withAll ws).ReduceInfoLogs = false :=
  ⟨rfl, fun w ws => reduceInfoLogs_With_withAll ws _ w⟩

/-- C7: on the Logger returned by `NewNopLogger()` and on every Logger derived from it by
`With` calls, every call of `Debug`, `Info`, `Warn` and `Error` emits no record, with any
arguments (the methods are total functions: every call returns), and `IsDebugEnabled()` and
`ReduceInfoLogs()` both return false. -/
theorem C7_nop_logger_is_silent (ws : List (List Value)) (env : Env)
    (err : Option GoError) (message : String) (kv : List Value) :
    (NewNopLogger.withAll ws).Debug env message kv = [] ∧
    (NewNopLogger.withAll ws).Info env message kv = [] ∧
    (NewNopLogger.withAll ws).Warn env message kv = [] ∧
    (NewNopLogger.withAll ws).Error env err message kv = [] ∧
    (NewNopLogger.withAll ws).IsDebugEnabled = false ∧
    (NewNopLogger.withAll ws).ReduceInfoLogs = false := by
  have hb := nopBacked_withAll ws nopBacked_NewNopLogger
  have h := emit_nopBacked hb env
  exact ⟨h .debug message kv, h .info message kv, h .warn message kv,
    h (.error err) message kv, hb.1, hb.2.1⟩

end logging

namespace log

theorem bindValues_of_no_valuer (env : Env) :
    ∀ kvs : List Value, containsValuer kvs = false → bindValues env kvs = kvs
  | [], _ => rfl
  | [_], _ => rfl
  | k :: v :: rest, h => by
    cases v <;> simp_all [containsValuer, bindValues, bindValue, bindValues_of_no_valuer env rest]

theorem pairs_record (env : Env) (x y : Value) (fields kvs : List Value)
    (h : fields.length % 2 = 0) :
    pairs (x :: y :: (bindValues env fields ++ padMissing kvs)) =
      (x, y) :: (pairs (bindValues env fields) ++ pairs kvs) := by
  simp only [pairs]
  rw [pairs_append_even _ _ (by rw [bindValues_length]; exact h), pairs_padMissing]

theorem With_fields_even (L : Logger) (kvs : List Value) (h : L.fields.length % 2 = 0) :
    (With L kvs).fields.length % 2 = 0 := by
  cases kvs with
  | nil => simpa [With] using h
  | cons x xs =>
    simpa [With, Logger.fields, newContext] using padMissing_length _

theorem With_With (L : Logger) (a b : List Value) (hL : L.fields.length % 2 = 0)
    (ha : a.length % 2 = 0) : With (With L a) b = With L (a ++ b) := by
  cases a with
  | nil => simp [With]
  | cons x xs =>
    have hne : (x :: xs ++ b).length ≠ 0 := by simp
    have e1 : With L (x :: xs) = .context (newContext L).1
        (padMissing ((newContext L).2.1 ++ (x :: xs)))
        ((newContext L).2.2 || containsValuer (x :: xs)) := by
      simp [With]
    have e2 : With L (x :: xs ++ b) = .context (newContext L).1
        (padMissing ((newContext L).2.1 ++ (x :: xs ++ b)))
        ((newContext L).2.2 || containsValuer (x :: xs ++ b)) := by
      simp [With]
    have hev : ((newContext L).2.1 ++ (x :: xs)).length % 2 = 0 := by
      have : (newContext L).2.1 = L.fields := rfl
      rw [this, List.length_append]; omega
    rw [e1, e2, With_context _ _ _ _ (padMissing_length _), padMissing_even hev,
      containsValuer_append_even _ _ ha, List.append_assoc, Bool.or_assoc]

end log

namespace logging

open log

theorem fields_NewLogger (format : String) (d r : Bool) (base : List Value) :
    (NewLogger format d r base).logger.fields =
      padMissing ([.str "ts", log.DefaultTimestampUTC, .str "caller", log.Caller 4] ++ base) := by
  have h1 : log.With (filterOf format d)
      [.str "ts", log.DefaultTimestampUTC, .str "caller", log.Caller 4]
      = .context (filterOf format d)
          [.str "ts", log.DefaultTimestampUTC, .str "caller", log.Caller 4] true := by
    simp [log.With, newContext, filterOf, level.NewFilter, padMissing, containsValuer,
      DefaultTimestampUTC]
  have h2 : (NewLogger format d r base).logger
      = log.With (log.With (filterOf format d)
          [.str "ts", log.DefaultTimestampUTC, .str "caller", log.Caller 4]) base := by
    cases d <;> simp [NewLogger, filterOf]
  rw [h2, h1, With_context _ _ _ _ (by simp)]
  simp [Logger.fields, newContext]

theorem fields_withAll {format : String} {d : Bool} (ws : List (List Value))
    (hws : ∀ w ∈ ws, w.length % 2 = 0) :
    ∀ {g : gokitLogger}, Backed format d g →
      (g.withAll ws).logger.fields = g.logger.fields ++ ws.flatten := by
  induction ws with
  | nil => intro g _; simp [gokitLogger.withAll]
  | cons w ws ih =>
    intro g h
    have hw : w.length % 2 = 0 := hws w (List.mem_cons_self _ _)
    have hev : (g.logger.fields ++ w).length % 2 = 0 := by
      have := h.2.1
      rw [List.length_append]; omega
    have e := ih (fun w' hw' => hws w' (List.mem_cons_of_mem _ hw')) (backed_With h w)
    rw [fields_With h w, padMissing_even hev] at e
    show ((g.With w).withAll ws).logger.fields = _
    rw [e]; simp

theorem bindValues_fields (env : Env) (format : String) (d r : Bool) (base : List Value)
    (ws : List (List Value)) (hbase : base.length % 2 = 0)
    (hws : ∀ w ∈ ws, w.length % 2 = 0) :
    bindValues env ((NewLogger format d r base).withAll ws).logger.fields =
      accumulated env base ws := by
  have hev : ([Value.str "ts", log.DefaultTimestampUTC, .str "caller", log.Caller 4]
      ++ base).length % 2 = 0 := by
    rw [List.length_append]; simp; omega
  rw [fields_withAll ws hws (backed_NewLogger format d r base), fields_NewLogger,
    padMissing_even hev, List.append_assoc, bindValues_append_even env _ _ (by simp)]
  simp [accumulated, bindValues, bindValue, DefaultTimestampUTC, Caller]

theorem built_fields_even {l : gokitLogger} (h : Built l) : l.logger.fields.length % 2 = 0 := by
  induction h with
  | newLogger format d r base => exact (backed_NewLogger format d r base).2.1
  | nop => rfl
  | step kvs _ ih => exact With_fields_even _ kvs ih

end logging

namespace logging

open log

theorem pairs_keyvals (m : Method) (message : String) (kv : List Value) :
    pairs (m.keyvals message kv) = pairs (m.keyvals message []) ++ pairs kv := by
  cases m <;> simp [Method.keyvals, pairs]

theorem carriesCall_of_plain {env : Env} {fields : List Value} (x y : Value)
    (hx : x = .str "level") (message : String) (kv : List Value)
    (h : fields.length % 2 = 0) (enc : Encoding) :
    CarriesCall (bindValues env fields) message kv
      ⟨enc, x :: y :: (bindValues env fields ++ padMissing ([.str "msg", .str message] ++ kv))⟩ := by
  subst hx
  refine ⟨?_, ?_, ?_⟩ <;> rw [pairs_record _ _ _ _ _ h] <;> simp [pairs]
  intro a b hab; exact Or.inr (Or.inr (Or.inr hab))

/-- C8, as stated, fails on the value of the `err` field. `Error(e, "failed", "retry", 3)`
with `e.Error() = "boom"` hands over a record whose `err` pair holds the error value `e`
itself, and no pair `err = "boom"`: the facade passes `err` as it is and makes no text of it.
With a nil `err` the pair is `err = nil`, which has no string representation. -/
theorem C8_counterexample_err_value_is_not_text :
    (NewLogger "json" false false []).Error env0 (some ⟨"boom"⟩) "failed"
        [.str "retry", .int 3] =
      [⟨.json, [.str "level", .levelValue level.errorValue, .str "ts",
        .str "2024-01-01T00:00:00Z", .str "caller", .str "main.go:10", .str "msg",
        .str "failed", .str "err", .error ⟨"boom"⟩, .str "retry", .int 3]⟩] ∧
    (Value.str "err", Value.str "boom") ∉ pairs
      [.str "level", .levelValue level.errorValue, .str "ts",
        .str "2024-01-01T00:00:00Z", .str "caller", .str "main.go:10", .str "msg",
        .str "failed", .str "err", .error ⟨"boom"⟩, .str "retry", .int 3] ∧
    (NewLogger "json" false false []).Error env0 none "failed" [] =
      [⟨.json, [.str "level", .levelValue level.errorValue, .str "ts",
        .str "2024-01-01T00:00:00Z", .str "caller", .str "main.go:10", .str "msg",
        .str "failed", .str "err", .nil]⟩] ∧
    pairs [.str "level", .levelValue level.errorValue, .str "ts",
        .str "2024-01-01T00:00:00Z", .str "caller", .str "main.go:10", .str "msg",
        .str "failed", .str "err", .nil] =
      [(.str "level", .levelValue level.errorValue), (.str "ts", .str "2024-01-01T00:00:00Z"),
        (.str "caller", .str "main.go:10"), (.str "msg", .str "failed"),
        (.str "err", .nil)] := by
  refine ⟨rfl, ?_, rfl, rfl⟩
  simp [pairs]

/-- C8, amended: on a Logger built by `NewLogger` (and `With` calls), for every `err`, nil or
not, every message and every key/value list `kv`, `Error(err, message, kv...)` hands one
record to the encoder, and its key/value list contains `msg = message`, the pair `err = err`
whose value is the Go value of `err` itself (the error, or nil), and every pair of `kv`;
`Info` and `Warn` hand over one record, and `Debug` one record when debug is enabled and none
otherwise, whose key/value list contains `msg = message` and every pair of `kv`, and an `err`
pair only if the stored fields or `kv` hold it. -/
theorem C8_error_hands_err_value (format : String) (d r : Bool) (base : List Value)
    (ws : List (List Value)) (env : Env) (err : Option GoError) (message : String)
    (kv : List Value) :
    (∃ rec, ((NewLogger format d r base).withAll ws).Error env err message kv = [rec] ∧
      (Value.str "msg", Value.str message) ∈ pairs rec.keyvals ∧
      (Value.str "err", errValue err) ∈ pairs rec.keyvals ∧
      ∀ p ∈ pairs kv, p ∈ pairs rec.keyvals) ∧
    (∃ rec, ((NewLogger format d r base).withAll ws).Info env message kv = [rec] ∧
      CarriesCall (bindValues env ((NewLogger format d r base).withAll ws).logger.fields)
        message kv rec) ∧
    (∃ rec, ((NewLogger format d r base).withAll ws).Warn env message kv = [rec] ∧
      CarriesCall (bindValues env ((NewLogger format d r base).withAll ws).logger.fields)
        message kv rec) ∧
    (∃ rec, ((NewLogger format d r base).withAll ws).Debug env message kv
        = (if d then [rec] else []) ∧
      CarriesCall (bindValues env ((NewLogger format d r base).withAll ws).logger.fields)
        message kv rec) := by
  have hb := backed_withAll ws (backed_NewLogger format d r base)
  have h := emit_backed hb env
  have hD := h .debug message kv
  have hI := h .info message kv
  have hW := h .warn message kv
  have hE := h (.error err) message kv
  simp only [gokitLogger.emit, Method.admitted, Method.levelValue, Method.keyvals, if_true]
    at hD hI hW hE
  refine ⟨⟨_, hE, ?_, ?_, ?_⟩, ⟨_, hI, ?_⟩, ⟨_, hW, ?_⟩, ⟨_, hD, ?_⟩⟩
  · rw [pairs_record _ _ _ _ _ hb.2.1]; simp [pairs]
  · rw [pairs_record _ _ _ _ _ hb.2.1]; simp [pairs]
  · rw [pairs_record _ _ _ _ _ hb.2.1]; simp only [List.cons_append, List.nil_append, pairs]
    intro p hp; simp [hp]
  · exact carriesCall_of_plain _ _ rfl _ _ hb.2.1 _
  · exact carriesCall_of_plain _ _ rfl _ _ hb.2.1 _
  · exact carriesCall_of_plain _ _ rfl _ _ hb.2.1 _

end logging

namespace logging

open log

/-- C9, as stated, fails when a base value is a valuer: `NewLogger("json", false, false,
"k", Caller(0))` then `Info("m")` emits one record, and the base list `k, Caller(0)` is not a
run of its key/value sequence, which holds the value the valuer returned instead. -/
theorem C9_counterexample_valuer_in_base :
    (NewLogger "json" false false [.str "k", log.Caller 0]).Info env0 "m" [] =
      [⟨.json, [.str "level", .levelValue level.infoValue, .str "ts",
        .str "2024-01-01T00:00:00Z", .str "caller", .str "main.go:10", .str "k",
        .str "main.go:10", .str "msg", .str "m"]⟩] ∧
    ¬ ([Value.str "k", log.Caller 0] <:+:
      [.str "level", .levelValue level.infoValue, .str "ts",
        .str "2024-01-01T00:00:00Z", .str "caller", .str "main.go:10", .str "k",
        .str "main.go:10", .str "msg", .str "m"]) := by
  refine ⟨rfl, fun h => ?_⟩
  have hm := h.subset (List.mem_cons_of_mem _ (List.mem_cons_self _ _))
  simp [Caller] at hm

/-- C9, amended: for `NewLogger(format, d, r, base...).With(w1...)...With(wn...)` with `base`
and every `wi` of even length, the key/value sequence of the record of an emission method is
exactly: the level pair of the method, `ts` and `caller` with the values of their valuers,
then `base`, then `w1 ... wn` in call order, each valuer among their values replaced by the
value it returns at the emission, then `msg = message` (then `err` for `Error`), then `kv`,
followed by the placeholder when `kv` has odd length. `Info`, `Warn` and `Error` emit this
one record, `Debug` emits it when `d` is true and nothing otherwise. Where `base` and the `wi`
hold no valuer they stand in the record as they are. -/
theorem C9_record_layout (format : String) (d r : Bool) (base : List Value)
    (ws : List (List Value)) (env : Env) (err : Option GoError) (message : String)
    (kv : List Value) (hbase : base.length % 2 = 0) (hws : ∀ w ∈ ws, w.length % 2 = 0) :
    ((NewLogger format d r base).withAll ws).Debug env message kv =
      (if d then
        [⟨encodingOf format, [.str "level", .levelValue level.debugValue] ++
          accumulated env base ws ++ [.str "msg", .str message] ++ padMissing kv⟩]
      else []) ∧
    ((NewLogger format d r base).withAll ws).Info env message kv =
      [⟨encodingOf format, [.str "level", .levelValue level.infoValue] ++
        accumulated env base ws ++ [.str "msg", .str message] ++ padMissing kv⟩] ∧
    ((NewLogger format d r base).withAll ws).Warn env message kv =
      [⟨encodingOf format, [.str "level", .levelValue level.warnValue] ++
        accumulated env base ws ++ [.str "msg", .str message] ++ padMissing kv⟩] ∧
    ((NewLogger format d r base).withAll ws).Error env err message kv =
      [⟨encodingOf format, [.str "level", .levelValue level.errorValue] ++
        accumulated env base ws ++ [.str "msg", .str message, .str "err", errValue err] ++
        padMissing kv⟩] ∧
    (containsValuer (base ++ ws.flatten) = false →
      accumulated env base ws =
        [.str "ts", .str env.now, .str "caller", .str (env.callerAt 4)] ++ base ++
          ws.flatten) := by
  have hb := backed_withAll ws (backed_NewLogger format d r base)
  have h := emit_backed hb env
  have hD := h .debug message kv
  have hI := h .info message kv
  have hW := h .warn message kv
  have hE := h (.error err) message kv
  have p2 : ∀ a b : Value, padMissing ([a, b] ++ kv) = [a, b] ++ padMissing kv :=
    fun a b => padMissing_append_even kv (by simp)
  have p4 : ∀ a b c e : Value, padMissing ([a, b, c, e] ++ kv) = [a, b, c, e] ++ padMissing kv :=
    fun a b c e => padMissing_append_even kv (by simp)
  simp only [gokitLogger.emit, Method.admitted, Method.levelValue, Method.keyvals, if_true,
    level.Key, bindValues_fields env format d r base ws hbase hws, p2, p4] at hD hI hW hE
  refine ⟨?_, ?_, ?_, ?_, ?_⟩
  · rw [hD]; simp
  · rw [hI]; simp
  · rw [hW]; simp
  · rw [hE]; simp
  · intro hv
    simp [accumulated, bindValues_of_no_valuer env _ hv]

/-- The amended C9 at a concrete input: a JSON logger with one base pair and two `With`
calls, `Error` called with one key/value pair. -/
theorem C9_record_layout_witness :
    [Value.str "app", Value.str "yace"].length % 2 = 0 ∧
    (∀ w ∈ [[Value.str "job", Value.str "ec2"], [Value.str "region", Value.str "eu"]],
      w.length % 2 = 0) ∧
    ((NewLogger "json" false false [.str "app", .str "yace"]).withAll
        [[.str "job", .str "ec2"], [.str "region", .str "eu"]]).Error env0
        (some ⟨"boom"⟩) "failed" [.str "retry", .int 3] =
      [⟨encodingOf "json", [.str "level", .levelValue level.errorValue] ++
        accumulated env0 [.str "app", .str "yace"]
          [[.str "job", .str "ec2"], [.str "region", .str "eu"]] ++
        [.str "msg", .str "failed", .str "err", errValue (some ⟨"boom"⟩)] ++
        padMissing [.str "retry", .int 3]⟩] :=
  ⟨rfl, by simp,
    (C9_record_layout "json" false false [.str "app", .str "yace"]
      [[.str "job", .str "ec2"], [.str "region", .str "eu"]] env0 (some ⟨"boom"⟩) "failed"
      [.str "retry", .int 3] rfl (by simp)).2.2.2.1⟩

/-- C10: `With` composes. For every Logger `l` built by the constructors and `With` calls,
every key/value list `a` of even length and every list `b`, `l.With(a...).With(b...)` and
`l.With((a ++ b)...)` report the same `IsDebugEnabled()` and `ReduceInfoLogs()`, and every
emission method called with the same arguments emits the same records on both. -/
theorem C10_with_composes (l : gokitLogger) (a b : List Value) (hl : Built l)
    (ha : a.length % 2 = 0) :
    ((l.With a).With b).IsDebugEnabled = (l.With (a ++ b)).IsDebugEnabled ∧
    ((l.With a).With b).ReduceInfoLogs = (l.With (a ++ b)).ReduceInfoLogs ∧
    ∀ (env : Env) (m : Method) (message : String) (kv : List Value),
      ((l.With a).With b).emit env m message kv = (l.With (a ++ b)).emit env m message kv := by
  have e : (l.With a).With b = l.With (a ++ b) := by
    simp only [gokitLogger.With, With_With l.logger a b (built_fields_even hl) ha]
  rw [e]
  exact ⟨rfl, rfl, fun _ _ _ _ => rfl⟩

/-- C10 at a concrete input: a root logger with `reduceInfoLogs = true`, an even list `a` and
an odd list `b`. -/
theorem C10_with_composes_witness :
    Built (NewLogger "logfmt" true true []) ∧
    [Value.str "a", Value.int 1].length % 2 = 0 ∧
    ((((NewLogger "logfmt" true true []).With [.str "a", .int 1]).With
        [.str "b"]).IsDebugEnabled =
      ((NewLogger "logfmt" true true []).With
        ([.str "a", .int 1] ++ [.str "b"])).IsDebugEnabled ∧
    (((NewLogger "logfmt" true true []).With [.str "a", .int 1]).With
        [.str "b"]).ReduceInfoLogs =
      ((NewLogger "logfmt" true true []).With
        ([.str "a", .int 1] ++ [.str "b"])).ReduceInfoLogs ∧
    ∀ (env : Env) (m : Method) (message : String) (kv : List Value),
      (((NewLogger "logfmt" true true []).With [.str "a", .int 1]).With [.str "b"]).emit
        env m message kv =
      ((NewLogger "logfmt" true true []).With ([.str "a", .int 1] ++ [.str "b"])).emit
        env m message kv) :=
  ⟨Built.newLogger _ _ _ _, rfl,
    C10_with_composes _ _ _ (Built.newLogger "logfmt" true true []) rfl⟩

end logging

namespace logging

open log

/-- C4, as stated, fails in both halves. First half: after `With("k", Caller(0))` the record
of `Info("m")` holds `k` with the value the valuer returned, not the pair `k = Caller(0)`.
Second half: the record that the parent emits on `Info("m")` contains the pair `msg = m`,
which is neither among the parent's fields nor in the (empty) key/values of the call, so for
`k = msg`, `v = m` the parent's record contains `k = v`. -/
theorem C4_counterexample_valuer_and_msg :
    ((NewLogger "json" false false []).With [.str "k", log.Caller 0]).Info env0 "m" [] =
      [⟨.json, [.str "level", .levelValue level.infoValue, .str "ts",
        .str "2024-01-01T00:00:00Z", .str "caller", .str "main.go:10", .str "k",
        .str "main.go:10", .str "msg", .str "m"]⟩] ∧
    (Value.str "k", log.Caller 0) ∉ pairs
      [.str "level", .levelValue level.infoValue, .str "ts",
        .str "2024-01-01T00:00:00Z", .str "caller", .str "main.go:10", .str "k",
        .str "main.go:10", .str "msg", .str "m"] ∧
    (NewLogger "json" false false []).Info env0 "m" [] =
      [⟨.json, [.str "level", .levelValue level.infoValue, .str "ts",
        .str "2024-01-01T00:00:00Z", .str "caller", .str "main.go:10", .str "msg",
        .str "m"]⟩] ∧
    (Value.str "msg", Value.str "m") ∈ pairs
      [.str "level", .levelValue level.infoValue, .str "ts",
        .str "2024-01-01T00:00:00Z", .str "caller", .str "main.go:10", .str "msg",
        .str "m"] ∧
    (NewLogger "json" false false []).logger.fields =
      [.str "ts", log.DefaultTimestampUTC, .str "caller", log.Caller 4] ∧
    (Value.str "msg", Value.str "m") ∉
      pairs [.str "ts", log.DefaultTimestampUTC, .str "caller", log.Caller 4] ∧
    (Value.str "msg", Value.str "m") ∉
      pairs (bindValues env0 [.str "ts", log.DefaultTimestampUTC, .str "caller", log.Caller 4]) ∧
    (Value.str "msg", Value.str "m") ∉ pairs ([] : List Value) := by
  refine ⟨rfl, ?_, rfl, ?_, rfl, ?_, ?_, ?_⟩
  · simp [pairs, Caller]
  · simp [pairs]
  · simp [pairs]
  · simp [pairs, bindValues]
  · simp [pairs]

/-- C4, amended: for every Logger `l` built by the constructors and `With` calls, key `k` and
value `v`, every record emitted by an emission method on `l.With(k, v)` contains the pair of
`k` and the value of `v` as bound at the emission, which is `k = v` when `v` is not a valuer.
`With` is a function of its receiver and returns a new Logger, `l` is the same value after
the call; a record emitted by `l` contains `k = v` only if the pair is among the fields of
`l` as bound at the emission, among the key/values of the call, or is one of the pairs that
the method itself adds: its level pair, `msg`, and `err` for `Error`. -/
theorem C4_with_adds_pair_parent_keeps_fields (l : gokitLogger) (k v : Value) (env : Env)
    (m : Method) (message : String) (kv : List Value) (hl : Built l) :
    (∀ rec ∈ (l.With [k, v]).emit env m message kv,
      (k, bindValue env v) ∈ pairs rec.keyvals ∧
      ((∀ f, v ≠ Value.Valuer f) → (k, v) ∈ pairs rec.keyvals)) ∧
    (∀ rec ∈ l.emit env m message kv, (k, v) ∈ pairs rec.keyvals →
      (k, v) ∈ pairs (bindValues env l.logger.fields) ∨ (k, v) ∈ pairs kv ∨
      (k, v) = (Value.str "level", Value.levelValue m.levelValue) ∨
      (k, v) ∈ pairs (m.keyvals message [])) := by
  have hbind : (∀ f, v ≠ Value.Valuer f) → bindValue env v = v := by
    intro hv
    cases v <;> first | rfl | exact absurd rfl (hv _)
  rcases built_cases hl with hn | ⟨format, d, hb⟩
  · rw [emit_nopBacked (nopBacked_With hn _), emit_nopBacked hn]
    simp
  · have hb2 := backed_With hb [k, v]
    have hf : (l.With [k, v]).logger.fields = l.logger.fields ++ [k, v] := by
      rw [fields_With hb, padMissing_even]
      have := hb.2.1
      rw [List.length_append]; simp; omega
    constructor
    · intro rec hrec
      rw [emit_backed hb2] at hrec
      have hin : (k, bindValue env v) ∈ pairs rec.keyvals := by
        split at hrec
        · rw [List.mem_singleton] at hrec
          subst hrec
          show _ ∈ pairs (_ :: _ :: _)
          rw [pairs_record _ _ _ _ _ hb2.2.1, hf, bindValues_append_even _ _ _ hb.2.1,
            pairs_append_even _ _ (by rw [bindValues_length]; exact hb.2.1)]
          simp [pairs, bindValues]
        · simp at hrec
      refine ⟨hin, fun hv => ?_⟩
      rw [hbind hv] at hin
      exact hin
    · intro rec hrec hmem
      rw [emit_backed hb] at hrec
      split at hrec
      · rw [List.mem_singleton] at hrec
        subst hrec
        have hmem2 : (k, v) ∈ pairs (level.Key :: Value.levelValue m.levelValue ::
            (bindValues env l.logger.fields ++ padMissing (m.keyvals message kv))) := hmem
        rw [pairs_record _ _ _ _ _ hb.2.1, pairs_keyvals] at hmem2
        simp only [List.mem_cons, List.mem_append] at hmem2
        rcases hmem2 with h | h | h | h
        · exact Or.inr (Or.inr (Or.inl h))
        · exact Or.inl h
        · exact Or.inr (Or.inr (Or.inr h))
        · exact Or.inr (Or.inl h)
      · simp at hrec

/-- The amended C4 at a concrete input: a JSON logger with one base pair, `With("job",
"ec2")`, and `Warn("slow", "ms", 7)` on the child and on the parent. The child emits a record,
shown in full. -/
theorem C4_with_adds_pair_parent_keeps_fields_witness :
    Built (NewLogger "json" false false [.str "app", .str "yace"]) ∧
    ((NewLogger "json" false false [.str "app", .str "yace"]).With
        [.str "job", .str "ec2"]).emit env0 .warn "slow" [.str "ms", .int 7] =
      [⟨.json, [.str "level", .levelValue level.warnValue, .str "ts",
        .str "2024-01-01T00:00:00Z", .str "caller", .str "main.go:10", .str "app",
        .str "yace", .str "job", .str "ec2", .str "msg", .str "slow", .str "ms", .int 7]⟩] ∧
    ((∀ rec ∈ ((NewLogger "json" false false [.str "app", .str "yace"]).With
          [.str "job", .str "ec2"]).emit env0 .warn "slow" [.str "ms", .int 7],
      (Value.str "job", bindValue env0 (Value.str "ec2")) ∈ pairs rec.keyvals ∧
      ((∀ f, Value.str "ec2" ≠ Value.Valuer f) →
        (Value.str "job", Value.str "ec2") ∈ pairs rec.keyvals)) ∧
    (∀ rec ∈ (NewLogger "json" false false [.str "app", .str "yace"]).emit env0 .warn "slow"
          [.str "ms", .int 7],
      (Value.str "job", Value.str "ec2") ∈ pairs rec.keyvals →
      (Value.str "job", Value.str "ec2") ∈ pairs (bindValues env0
        (NewLogger "json" false false [.str "app", .str "yace"]).logger.fields) ∨
      (Value.str "job", Value.str "ec2") ∈ pairs [.str "ms", .int 7] ∨
      (Value.str "job", Value.str "ec2") =
        (Value.str "level", Value.levelValue Method.warn.levelValue) ∨
      (Value.str "job", Value.str "ec2") ∈ pairs (Method.warn.keyvals "slow" []))) :=
  ⟨Built.newLogger _ _ _ _, rfl,
    C4_with_adds_pair_parent_keeps_fields _ _ _ env0 .warn "slow" [.str "ms", .int 7]
      (Built.newLogger "json" false false [.str "app", .str "yace"])⟩

end logging
